import Mathlib

/-!
Shallow embedding of the navigation/editing core of QuickEdit v0.2.0
(src/qe.c).  Buffers are lists of byte values (`List Nat`, each < 256 in
practice); file offsets are `Int`, mirroring the `int64_t` offsets of the
source.  Code paths that in C perform an out-of-bounds access or fail to
terminate are modelled with `Option`, `none` marking the undefined
behaviour; every other code path is translated branch-for-branch from
qe.c.
-/

/-- Newline byte value used throughout qe.c. -/
def NL : Nat := 10

/-- Byte at offset `q` is a newline (reads `editor.page[q]`); out-of-range
reads yield the default 0, which is never `NL`. -/
def isNl (buf : List Nat) (q : Nat) : Prop := buf.getD q 0 = NL

instance (buf : List Nat) : DecidablePred (isNl buf) :=
  fun q => inferInstanceAs (Decidable (buf.getD q 0 = NL))

/-- Backward scan to the start of the line containing offset `p`
(qe.c:533-539 and qe.c:988-993): while `p != 0` and `page[p] != '\n'`
decrement `p`; afterwards, if `p != 0`, step one past the newline found. -/
def lineStart (buf : List Nat) : Nat → Nat
  | 0 => 0
  | p + 1 => if buf.getD (p + 1) 0 = NL then p + 2 else lineStart buf p

/-- Forward branch of the scan loop of `qe_move_window_y` (qe.c:508-551,
`step = 1`).  Returns the final `page_offset` plus a flag that is `true`
exactly when one of the two clamp branches (qe.c:515-524) fired. -/
def moveFwd (buf : List Nat) (an i : Nat) (p : Int) : Int × Bool :=
  if h1 : p < 0 then (0, true)
  else if h2 : (buf.length : Int) ≤ p then ((buf.length : Int) - 1, true)
  else if buf.getD p.toNat 0 = NL then
    if an < i + 1 then (p + 1, false)
    else moveFwd buf an (i + 1) (p + 1)
  else moveFwd buf an i (p + 1)
termination_by ((buf.length : Int) - p).toNat
decreasing_by
  all_goals omega

/-- Backward branch of the scan loop of `qe_move_window_y` (qe.c:508-551,
`step = -1`).  After passing `an + 1` newlines the code steps to `p - 1`
and backs up to the line start; when `p = 0` that back-up loop starts at
offset `-1` and reads out of bounds, modelled as `none`. -/
def moveBack (buf : List Nat) (an i : Nat) (p : Int) : Option (Int × Bool) :=
  if h1 : p < 0 then some (0, true)
  else if h2 : (buf.length : Int) ≤ p then some ((buf.length : Int) - 1, true)
  else if buf.getD p.toNat 0 = NL then
    if an < i + 1 then
      if p = 0 then none
      else some (((lineStart buf (p - 1).toNat : Nat) : Int), false)
    else moveBack buf an (i + 1) (p - 1)
  else moveBack buf an i (p - 1)
termination_by (p + 1).toNat
decreasing_by
  all_goals omega

/-- Model of `qe_move_window_y(n)` (qe.c:508-551) acting on a given
`page_offset`: scan direction is `step = n > 0 ? 1 : -1`, the scan count
is `an = |n|`.  The result pairs the new `page_offset` with the clamp
flag; `none` is the out-of-bounds back-up described at `moveBack`. -/
def qe_move_window_y (buf : List Nat) (page_offset : Int) (n : Int) :
    Option (Int × Bool) :=
  if 0 < n then some (moveFwd buf n.toNat 0 page_offset)
  else moveBack buf (-n).toNat 0 page_offset

/-- Model of `qe_move_window_x(n)` (qe.c:556-568): add `n` to
`page_offset_x` and clamp below at 0. -/
def qe_move_window_x (page_offset_x : Int) (n : Int) : Int :=
  if page_offset_x + n < 0 then 0 else page_offset_x + n

/-- The `memchr`-driven loop of `qe_get_cursor_byte_position`
(qe.c:579-589): for each of `cursor_y` rounds search the suffix of the
buffer at the current offset for a newline.  `memchr` returns an absolute
pointer `s`, but the code computes `s - &page[offset]`, the index of the
newline RELATIVE to the scan start, and continues from `relative + 1`;
this faithful translation keeps that arithmetic (`j` below is the
relative index delivered by `findIdx?`).  `none` is the `!s` early return
(no newline until end of file). -/
def cursorScan (buf : List Nat) : Nat → Nat → Option Nat
  | 0, off => some off
  | i + 1, off =>
    match (buf.drop off).findIdx? (fun b => b == NL) with
    | none => none
    | some j => cursorScan buf i (j + 1)

/-- Model of `qe_get_cursor_byte_position` (qe.c:576-599): run the
newline-skipping loop, on `memchr` failure return `st_size - 1`,
otherwise add `page_offset_x + cursor_x` and clamp to `st_size - 1`. -/
def qe_get_cursor_byte_position (buf : List Nat) (page_offset page_offset_x : Int)
    (cursor_x cursor_y : Nat) : Int :=
  match cursorScan buf cursor_y page_offset.toNat with
  | none => (buf.length : Int) - 1
  | some off =>
    let o : Int := (off : Int) + page_offset_x + (cursor_x : Int)
    if (buf.length : Int) ≤ o then (buf.length : Int) - 1 else o

/-- Scan loop of `cursorByteOffset` as the spec words it (for comparison
with `cursorScan`): after finding the newline at absolute position
`off + j`, continue from `off + j + 1`, one byte past it. -/
def cursorSpecScan (buf : List Nat) : Nat → Nat → Option Nat
  | 0, off => some off
  | i + 1, off =>
    match (buf.drop off).findIdx? (fun b => b == NL) with
    | none => none
    | some j => cursorSpecScan buf i (off + j + 1)

/-- Cursor byte offset as described by the spec (scan forward from
`page_offset` past `cursor_y` newlines, add `page_offset_x + cursor_x`,
clamp to `S - 1`); used to compare the code against the claim. -/
def cursorOffsetSpec (buf : List Nat) (page_offset page_offset_x : Int)
    (cursor_x cursor_y : Nat) : Int :=
  match cursorSpecScan buf cursor_y page_offset.toNat with
  | none => (buf.length : Int) - 1
  | some off =>
    let o : Int := (off : Int) + page_offset_x + (cursor_x : Int)
    if (buf.length : Int) ≤ o then (buf.length : Int) - 1 else o

/-- Position of the first occurrence of `pat` inside `hay`, the glibc
`memmem` semantics used by `qe_search` (qe.c:603-613): the first index
`j` such that `pat` occupies `hay[j ...]` entirely; an empty needle
matches immediately at index 0. -/
def memmemPos (pat : List Nat) : List Nat → Option Nat
  | [] => if pat.isPrefixOf [] then some 0 else none
  | h :: t =>
    if pat.isPrefixOf (h :: t) then some 0
    else (memmemPos pat t).map fun j => j + 1

/-- Model of `qe_search(offset)` (qe.c:603-613): `memmem` over the byte
range `[offset, st_size)`; `-1` when absent, otherwise the absolute
offset `p - editor.page` of the match. -/
def qe_search (buf pat : List Nat) (offset : Nat) : Int :=
  match memmemPos pat (buf.drop offset) with
  | none => -1
  | some j => ((offset + j : Nat) : Int)

/-- Pattern `pat` occurs as a contiguous byte run starting at offset `o`
of `buf`. -/
def occursAt (buf pat : List Nat) (o : Nat) : Prop :=
  pat.isPrefixOf (buf.drop o) = true

/-- Editor modes of qe.c:55-59. -/
inductive EditMode where
  | normal
  | insert
  | search
deriving DecidableEq

/-- The mutable editor state of qe.c:67-130 (fields the navigation and
editing claims depend on; purely visual state such as the status buffer
and dirty flags is omitted).  Defaults correspond to the zero
initialisation of `qe_init` (qe.c:387-396). -/
structure Editor where
  read_only : Bool := false
  wrap : Bool := false
  page : List Nat := []
  page_offset : Int := 0
  page_offset_x : Int := 0
  cursor_x : Nat := 0
  cursor_y : Nat := 0
  mode : EditMode := EditMode.normal
  search_buf : List Nat := List.replicate 64 0
  search_len : Nat := 0
deriving DecidableEq

/-- Result of processing one key: a next state, process exit, or an
out-of-bounds memory access (undefined behaviour in the C program). -/
inductive Outcome where
  | ok (e : Editor)
  | quit
  | fault
deriving DecidableEq

/-- Bounds-checked byte read: `some` of the byte when `0 ≤ i < size`,
`none` (fault) otherwise. -/
def rdChk (buf : List Nat) (i : Int) : Option Nat :=
  if 0 ≤ i ∧ i < (buf.length : Int) then some (buf.getD i.toNat 0) else none

/-- Bounds-checked byte write into a fixed-size byte array, `none`
(fault) when the index is out of range. -/
def setChk (l : List Nat) (i v : Nat) : Option (List Nat) :=
  if i < l.length then some (l.set i v) else none

/-- Model of `qe_move_cursor_x(x)` (qe.c:616-655).  `new_x` is
`page_offset_x + cursor_x + x`; the three branches reset to the left
edge, scroll right in width-sized chunks, or move within the view, the
last one refusing a rightward move when the byte after the cursor is a
newline.  The unchecked read `page[off + 1]` (qe.c:645) goes through
`rdChk`; `cursor_x` is a `uint16_t`, hence the mod-65536 update. -/
def qe_move_cursor_x (width : Nat) (e : Editor) (x : Int) : Option Editor :=
  let new_x : Int := e.page_offset_x + (e.cursor_x : Int) + x
  if new_x < 0 then
    some { e with page_offset_x := 0,
                  cursor_x := if e.cursor_x = 0 then 0 else width - 1 }
  else if (width : Int) ≤ new_x then
    some { e with page_offset_x := new_x - new_x % (width : Int),
                  cursor_x := (new_x % (width : Int)).toNat }
  else
    if 0 < x then
      match rdChk e.page (qe_get_cursor_byte_position e.page e.page_offset
          e.page_offset_x e.cursor_x e.cursor_y + 1) with
      | none => none
      | some b =>
        if b = NL then some e
        else some { e with cursor_x := ((((e.cursor_x : Int) + x) % 65536)).toNat }
    else some { e with cursor_x := ((((e.cursor_x : Int) + x) % 65536)).toNat }

/-- Model of `qe_move_cursor_y(y)` (qe.c:657-690): move within
`[0, height - 2]`, otherwise scroll half a page (`-terminal.height / 2`
truncates toward zero, hence `-(height / 2)`) and park the cursor at the
bottom (`height - 2`, a `uint16_t`) or top row. -/
def qe_move_cursor_y (height : Nat) (e : Editor) (y : Int) : Option Editor :=
  let new_y : Int := (e.cursor_y : Int) + y
  if new_y < 0 then
    if e.page_offset = 0 then some e
    else
      (qe_move_window_y e.page e.page_offset (-((height / 2 : Nat) : Int))).map
        fun r => { e with page_offset := r.1,
                          cursor_y := ((((height : Int) - 2) % 65536)).toNat }
  else if ((height : Int) - 1) ≤ new_y then
    (qe_move_window_y e.page e.page_offset ((height / 2 : Nat) : Int)).map
      fun r => { e with page_offset := r.1, cursor_y := 0 }
  else
    some { e with cursor_y := ((((e.cursor_y : Int) + y) % 65536)).toNat }

/-- Insert-mode default branch of `qe_process_key` (qe.c:914-952): write
byte `c` (truncated to `uint8_t`) at the cursor's byte offset, then
advance the cursor, wrapping to the next row when the next byte is a
newline (the unchecked read `page[off + 1]`, qe.c:942, goes through
`rdChk`).  The first component is the buffer after the write, which
happens regardless of how the cursor advance fares. -/
def qe_insert_byte (width : Nat) (e : Editor) (c : Int) :
    List Nat × Option Editor :=
  let off := qe_get_cursor_byte_position e.page e.page_offset e.page_offset_x
    e.cursor_x e.cursor_y
  let page1 := e.page.set off.toNat ((c % 256)).toNat
  let e1 := { e with page := page1 }
  (page1,
    match rdChk page1 (off + 1) with
    | none => none
    | some b =>
      if b = NL then
        some { e1 with cursor_x := 0, cursor_y := (e1.cursor_y + 1) % 65536 }
      else qe_move_cursor_x width e1 1)

/-- Modulus of `size_t` arithmetic on a 64-bit system. -/
def SIZE_T_MOD : Nat := 18446744073709551616

/-- Search-mode default branch of `qe_process_key` (qe.c:1007-1031):
below the 63-byte cap, append a printable byte (writing the byte and a
terminating 0) or handle backspace by decrementing the `size_t`
`search_len` — which wraps to `2^64 - 1` when the pattern is empty, the
guard `if (search_len == 0) search_len = 0;` being a no-op — and then
write a terminator at `search_buf[search_len]` through `setChk`. -/
def qe_search_accumulate (e : Editor) (c : Int) : Option Editor :=
  if 63 ≤ e.search_len then some e
  else if ¬ c = 127 then
    match setChk e.search_buf e.search_len ((c % 256)).toNat with
    | none => none
    | some sb1 =>
      match setChk sb1 (e.search_len + 1) 0 with
      | none => none
      | some sb2 =>
        some { e with search_buf := sb2, search_len := e.search_len + 1 }
  else
    let len1 := (e.search_len + (SIZE_T_MOD - 1)) % SIZE_T_MOD
    let len2 := if len1 = 0 then 0 else len1
    match setChk e.search_buf len2 0 with
    | none => none
    | some sb => some { e with search_buf := sb, search_len := len2 }

/-- Decoded keycodes of qe.c:409-424 that sit above the byte range. -/
def KEY_PGUP : Int := 514
def KEY_PGDN : Int := 515
def KEY_ARROW_UP : Int := 516
def KEY_ARROW_DOWN : Int := 517
def KEY_ARROW_RIGHT : Int := 518
def KEY_ARROW_LEFT : Int := 519

/-- Wrap an optional editor state into an `Outcome`. -/
def outcomeOfOpt : Option Editor → Outcome
  | none => Outcome.fault
  | some e => Outcome.ok e

/-- Scroll the window vertically and store the resulting `page_offset`
(the call sites of `qe_move_window_y` inside `qe_process_key`). -/
def scrollWinY (e : Editor) (n : Int) : Option Editor :=
  (qe_move_window_y e.page e.page_offset n).map fun r => { e with page_offset := r.1 }

/-- Model of `qe_process_key` (qe.c:784-1036).  Key values: `'q'` = 113,
`'i'` = 105, `'/'` = 47, `'r'` = 114, `'w'` = 119, `'j'` = 106,
`'k'` = 107, `'h'` = 104, `'l'` = 108, `CTRL('c')` = 3, `CTRL('d')` = 4,
`CTRL('u')` = 21, `CTRL('h')` = 8, `CTRL('l')` = 12, `ESC` = 27,
`ENTER` = 13, `BACKSPACE` = 127. -/
def qe_process_key (width height : Nat) (e : Editor) (c : Int) : Outcome :=
  match e.mode with
  | EditMode.normal =>
    if c = 113 ∨ c = 3 then Outcome.quit
    else if c = 105 then
      Outcome.ok (if e.read_only then e else { e with mode := EditMode.insert })
    else if c = 47 then
      Outcome.ok { e with mode := EditMode.search,
                          search_buf := e.search_buf.set 0 0, search_len := 0 }
    else if c = 114 then Outcome.ok e
    else if c = 119 then Outcome.ok { e with wrap := !e.wrap }
    else if c = KEY_PGDN ∨ c = 4 then
      outcomeOfOpt (scrollWinY e ((height : Int) - 1))
    else if c = KEY_PGUP ∨ c = 21 then
      outcomeOfOpt (scrollWinY e (-((height : Int) - 1)))
    else if c = KEY_ARROW_DOWN ∨ c = 106 then
      outcomeOfOpt (qe_move_cursor_y height e 1)
    else if c = KEY_ARROW_UP ∨ c = 107 then
      outcomeOfOpt (qe_move_cursor_y height e (-1))
    else if c = KEY_ARROW_LEFT ∨ c = 104 then
      outcomeOfOpt (qe_move_cursor_x width e (-1))
    else if c = KEY_ARROW_RIGHT ∨ c = 108 then
      outcomeOfOpt (qe_move_cursor_x width e 1)
    else if c = 8 then
      Outcome.ok { e with page_offset_x :=
        (qe_move_window_x e.page_offset_x (-((width / 2 : Nat) : Int))) }
    else if c = 12 then
      Outcome.ok { e with page_offset_x :=
        (qe_move_window_x e.page_offset_x ((width / 2 : Nat) : Int)) }
    else Outcome.ok e
  | EditMode.insert =>
    if c = 3 then Outcome.quit
    else if c = 27 then Outcome.ok { e with mode := EditMode.normal }
    else if c = KEY_PGDN ∨ c = 4 then
      outcomeOfOpt (scrollWinY e ((height : Int) - 1))
    else if c = KEY_PGUP ∨ c = 21 then
      outcomeOfOpt (scrollWinY e (-((height : Int) - 1)))
    else if c = KEY_ARROW_DOWN then outcomeOfOpt (qe_move_cursor_y height e 1)
    else if c = KEY_ARROW_UP then outcomeOfOpt (qe_move_cursor_y height e (-1))
    else if c = KEY_ARROW_LEFT then outcomeOfOpt (qe_move_cursor_x width e (-1))
    else if c = KEY_ARROW_RIGHT then outcomeOfOpt (qe_move_cursor_x width e 1)
    else if c = 8 then
      Outcome.ok { e with page_offset_x :=
        (qe_move_window_x e.page_offset_x (-((width / 2 : Nat) : Int))) }
    else if c = 12 then
      Outcome.ok { e with page_offset_x :=
        (qe_move_window_x e.page_offset_x ((width / 2 : Nat) : Int)) }
    else outcomeOfOpt (qe_insert_byte width e c).2
  | EditMode.search =>
    if c = 3 then Outcome.quit
    else if c = 27 then Outcome.ok { e with mode := EditMode.normal }
    else if c = 13 then
      let e1 := { e with mode := EditMode.normal }
      let off := qe_get_cursor_byte_position e.page e.page_offset
        e.page_offset_x e.cursor_x e.cursor_y
      let actual := qe_search e.page (e.search_buf.take e.search_len)
        (off + 1).toNat
      if actual = -1 then Outcome.ok e1
      else
        let addr := lineStart e.page actual.toNat
        Outcome.ok { e1 with page_offset := (addr : Int),
                             page_offset_x := actual - (addr : Int) }
    else outcomeOfOpt (qe_search_accumulate e c)

/-- States whose `page_offset` is reachable from the initial offset 0
purely through vertical scrolling operations (`qe_move_window_y` with
arbitrary arguments, including calls that clamp). -/
inductive ScrollReach (buf : List Nat) : Int → Prop where
  | init : ScrollReach buf 0
  | step {p n p' : Int} {f : Bool} (hr : ScrollReach buf p)
      (hs : qe_move_window_y buf p n = some (p', f)) : ScrollReach buf p'

/-- Offset `p` is 0 or one plus the offset of a newline byte of the
buffer (the line-start invariant of the spec). -/
def lineAligned (buf : List Nat) (p : Int) : Prop :=
  p = 0 ∨ (1 ≤ p ∧ p ≤ (buf.length : Int) ∧ buf.getD (p - 1).toNat 0 = NL)

instance (buf : List Nat) (p : Int) : Decidable (lineAligned buf p) :=
  inferInstanceAs (Decidable (p = 0 ∨
    (1 ≤ p ∧ p ≤ (buf.length : Int) ∧ buf.getD (p - 1).toNat 0 = NL)))

/-- The 17-byte demo buffer of the spec scenario, the bytes of
`abcdefghij`, newline, `klmno`, newline. -/
def bufDemo : List Nat :=
  [97, 98, 99, 100, 101, 102, 103, 104, 105, 106, 10,
   107, 108, 109, 110, 111, 10]

/-- Two bytes `ab`, no newline at all. -/
def bufAB : List Nat := [97, 98]

/-- The bytes of `a`, newline, `b`, newline, newline, `c`: a buffer whose
third line is empty. -/
def bufEmptyLine : List Nat := [97, 10, 98, 10, 10, 99]

/-- The bytes of five two-letter lines `aa` … `ee`, each
newline-terminated. -/
def bufRound : List Nat :=
  [97, 97, 10, 98, 98, 10, 99, 99, 10, 100, 100, 10, 101, 101, 10]

/-- The bytes of `abcdefabcdef` (search scenario haystack). -/
def bufSearch : List Nat :=
  [97, 98, 99, 100, 101, 102, 97, 98, 99, 100, 101, 102]

/-- The bytes of `def` (search scenario pattern). -/
def patDef : List Nat := [100, 101, 102]

/-- Viewport state on the second line of `bufDemo` with the cursor at
column `k` (used for the horizontal-move scenario). -/
def stKl (k : Nat) : Editor := { page := bufDemo, cursor_x := k, cursor_y := 1 }

/-- Initial-like state over the three-byte buffer `a`, newline, `b`. -/
def stANl : Editor := { page := [97, 10, 98] }

/-- The same state in insert mode. -/
def stANlIns : Editor := { page := [97, 10, 98], mode := EditMode.insert }

/-- State after typing `x` over the `a`: the write lands before the
newline, so the cursor wraps to row 1. -/
def stANlAfter : Editor :=
  { page := [120, 10, 98], mode := EditMode.insert, cursor_x := 0, cursor_y := 1 }

/-- Insert-mode state over `ab` with the cursor on the first byte. -/
def stIns : Editor := { page := bufAB, mode := EditMode.insert }

/-- Search-mode state over `ab` with an empty pattern. -/
def stSrch : Editor := { page := bufAB, mode := EditMode.search }

/-- Normal-mode state over `ab` with the cursor at column 0 or 1. -/
def stAB (k : Nat) : Editor := { page := bufAB, cursor_x := k }

/-- Viewport state over `bufDemo` with the cursor on row `k`. -/
def stRow (k : Nat) : Editor := { page := bufDemo, cursor_y := k }

-- Step lemmas for the two scan loops, used both to evaluate them on
-- concrete buffers and to drive the inductions below.

theorem moveFwd_clamp_neg (buf : List Nat) (an i : Nat) (p : Int)
    (h : p < 0) : moveFwd buf an i p = (0, true) := by
  conv_lhs => rw [moveFwd]
  rw [dif_pos h]

theorem moveFwd_clamp_end (buf : List Nat) (an i : Nat) (p : Int)
    (h0 : ¬ p < 0) (h1 : (buf.length : Int) ≤ p) :
    moveFwd buf an i p = ((buf.length : Int) - 1, true) := by
  conv_lhs => rw [moveFwd]
  rw [dif_neg h0, dif_pos h1]

theorem moveFwd_hit (buf : List Nat) (an i : Nat) (p : Int)
    (h0 : ¬ p < 0) (h1 : ¬ (buf.length : Int) ≤ p)
    (h2 : buf.getD p.toNat 0 = NL) (h3 : an < i + 1) :
    moveFwd buf an i p = (p + 1, false) := by
  conv_lhs => rw [moveFwd]
  rw [dif_neg h0, dif_neg h1, if_pos h2, if_pos h3]

theorem moveFwd_hit_more (buf : List Nat) (an i : Nat) (p : Int)
    (h0 : ¬ p < 0) (h1 : ¬ (buf.length : Int) ≤ p)
    (h2 : buf.getD p.toNat 0 = NL) (h3 : ¬ an < i + 1) :
    moveFwd buf an i p = moveFwd buf an (i + 1) (p + 1) := by
  conv_lhs => rw [moveFwd]
  rw [dif_neg h0, dif_neg h1, if_pos h2, if_neg h3]

theorem moveFwd_skip (buf : List Nat) (an i : Nat) (p : Int)
    (h0 : ¬ p < 0) (h1 : ¬ (buf.length : Int) ≤ p)
    (h2 : ¬ buf.getD p.toNat 0 = NL) :
    moveFwd buf an i p = moveFwd buf an i (p + 1) := by
  conv_lhs => rw [moveFwd]
  rw [dif_neg h0, dif_neg h1, if_neg h2]

theorem moveBack_clamp_neg (buf : List Nat) (an i : Nat) (p : Int)
    (h : p < 0) : moveBack buf an i p = some (0, true) := by
  conv_lhs => rw [moveBack]
  rw [dif_pos h]

theorem moveBack_clamp_end (buf : List Nat) (an i : Nat) (p : Int)
    (h0 : ¬ p < 0) (h1 : (buf.length : Int) ≤ p) :
    moveBack buf an i p = some ((buf.length : Int) - 1, true) := by
  conv_lhs => rw [moveBack]
  rw [dif_neg h0, dif_pos h1]

theorem moveBack_hit_stop (buf : List Nat) (an i : Nat) (p : Int)
    (h0 : ¬ p < 0) (h1 : ¬ (buf.length : Int) ≤ p)
    (h2 : buf.getD p.toNat 0 = NL) (h3 : an < i + 1) (h4 : ¬ p = 0) :
    moveBack buf an i p =
      some (((lineStart buf (p - 1).toNat : Nat) : Int), false) := by
  conv_lhs => rw [moveBack]
  rw [dif_neg h0, dif_neg h1, if_pos h2, if_pos h3, if_neg h4]

theorem moveBack_hit_oob (buf : List Nat) (an i : Nat) (p : Int)
    (h0 : ¬ p < 0) (h1 : ¬ (buf.length : Int) ≤ p)
    (h2 : buf.getD p.toNat 0 = NL) (h3 : an < i + 1) (h4 : p = 0) :
    moveBack buf an i p = none := by
  conv_lhs => rw [moveBack]
  rw [dif_neg h0, dif_neg h1, if_pos h2, if_pos h3, if_pos h4]

theorem moveBack_hit_more (buf : List Nat) (an i : Nat) (p : Int)
    (h0 : ¬ p < 0) (h1 : ¬ (buf.length : Int) ≤ p)
    (h2 : buf.getD p.toNat 0 = NL) (h3 : ¬ an < i + 1) :
    moveBack buf an i p = moveBack buf an (i + 1) (p - 1) := by
  conv_lhs => rw [moveBack]
  rw [dif_neg h0, dif_neg h1, if_pos h2, if_neg h3]

theorem moveBack_skip (buf : List Nat) (an i : Nat) (p : Int)
    (h0 : ¬ p < 0) (h1 : ¬ (buf.length : Int) ≤ p)
    (h2 : ¬ buf.getD p.toNat 0 = NL) :
    moveBack buf an i p = moveBack buf an i (p - 1) := by
  conv_lhs => rw [moveBack]
  rw [dif_neg h0, dif_neg h1, if_neg h2]


-- Counting newlines below a bound; `Nat.count (isNl buf) n` counts the
-- newline offsets smaller than `n`.

theorem count_no_nl_between (buf : List Nat) (a b j : Nat)
    (hc : Nat.count (isNl buf) a = Nat.count (isNl buf) b)
    (h1 : a ≤ j) (h2 : j < b) : ¬ isNl buf j := by
  intro hnl
  have m1 : Nat.count (isNl buf) a ≤ Nat.count (isNl buf) j :=
    Nat.count_monotone _ h1
  have m2 : Nat.count (isNl buf) (j + 1) ≤ Nat.count (isNl buf) b :=
    Nat.count_monotone _ (by omega)
  rw [Nat.count_succ, if_pos hnl] at m2
  omega

theorem count_nl_position (buf : List Nat) (a r : Nat) (hnl : isNl buf r)
    (hc : Nat.count (isNl buf) r = Nat.count (isNl buf) a) : a ≤ r := by
  by_contra hlt
  exact count_no_nl_between buf r a r hc le_rfl (by omega) hnl

theorem count_succ_nl (buf : List Nat) (n : Nat) (h : isNl buf n) :
    Nat.count (isNl buf) (n + 1) = Nat.count (isNl buf) n + 1 := by
  rw [Nat.count_succ, if_pos h]

theorem count_succ_nonl (buf : List Nat) (n : Nat) (h : ¬ isNl buf n) :
    Nat.count (isNl buf) (n + 1) = Nat.count (isNl buf) n := by
  rw [Nat.count_succ, if_neg h]
  rfl

theorem lineStart_eq_zero (buf : List Nat) :
    ∀ t : Nat, (∀ j : Nat, j ≤ t → ¬ isNl buf j) → lineStart buf t = 0 := by
  intro t
  induction t with
  | zero => intro _; rfl
  | succ t ihh =>
    intro h
    simp only [lineStart]
    rw [if_neg (show ¬ buf.getD (t + 1) 0 = NL from h (t + 1) le_rfl)]
    exact ihh fun j hj => h j (by omega)

theorem lineStart_eq_succ (buf : List Nat) (m : Nat) (hm : 1 ≤ m)
    (hnl : isNl buf m) :
    ∀ t : Nat, m ≤ t → (∀ j : Nat, m < j → j ≤ t → ¬ isNl buf j) →
      lineStart buf t = m + 1 := by
  intro t
  induction t with
  | zero => intro h1 _; omega
  | succ t ihh =>
    intro h1 h2
    by_cases he : m = t + 1
    · subst he
      simp only [lineStart]
      rw [if_pos (show buf.getD (t + 1) 0 = NL from hnl)]
    · simp only [lineStart]
      rw [if_neg (show ¬ buf.getD (t + 1) 0 = NL from
        h2 (t + 1) (by omega) le_rfl)]
      exact ihh (by omega) fun j hj1 hj2 => h2 j hj1 (by omega)

theorem lineStart_shape (buf : List Nat) : ∀ t : Nat,
    lineStart buf t = 0 ∨
      ∃ q : Nat, isNl buf q ∧ lineStart buf t = q + 1 := by
  intro t
  induction t with
  | zero => exact Or.inl rfl
  | succ t ihh =>
    by_cases hnl : buf.getD (t + 1) 0 = NL
    · refine Or.inr ⟨t + 1, hnl, ?_⟩
      simp only [lineStart]
      rw [if_pos hnl]
    · have : lineStart buf (t + 1) = lineStart buf t := by
        simp only [lineStart]
        rw [if_neg hnl]
      rw [this]
      exact ihh

theorem moveFwd_count_spec (buf : List Nat) (an : Nat) :
    ∀ k i : Nat, ∀ p res : Int,
      ((buf.length : Int) - p).toNat = k → i ≤ an → 0 ≤ p →
      moveFwd buf an i p = (res, false) →
      ∃ q : Nat, p ≤ (q : Int) ∧ q < buf.length ∧ isNl buf q ∧
        res = (q : Int) + 1 ∧
        Nat.count (isNl buf) (q + 1) + i = Nat.count (isNl buf) p.toNat + an + 1 := by
  intro k
  induction k using Nat.strong_induction_on with
  | _ k ih =>
    intro i p res hk hi hp hrun
    by_cases hend : (buf.length : Int) ≤ p
    · rw [moveFwd_clamp_end buf an i p (by omega) hend] at hrun
      simp at hrun
    · by_cases hnl : buf.getD p.toNat 0 = NL
      · by_cases hdone : an < i + 1
        · rw [moveFwd_hit buf an i p (by omega) hend hnl hdone] at hrun
          have hres : res = p + 1 := by
            have := congrArg Prod.fst hrun
            simpa using this.symm
          refine ⟨p.toNat, by omega, by omega, hnl, by omega, ?_⟩
          rw [count_succ_nl buf p.toNat hnl]
          omega
        · rw [moveFwd_hit_more buf an i p (by omega) hend hnl hdone] at hrun
          obtain ⟨q, hq1, hq2, hq3, hq4, hq5⟩ :=
            ih ((buf.length : Int) - (p + 1)).toNat (by omega) (i + 1) (p + 1)
              res rfl (by omega) (by omega) hrun
          have e1 : (p + 1).toNat = p.toNat + 1 := by omega
          rw [e1, count_succ_nl buf p.toNat hnl] at hq5
          exact ⟨q, by omega, hq2, hq3, hq4, by omega⟩
      · rw [moveFwd_skip buf an i p (by omega) hend hnl] at hrun
        obtain ⟨q, hq1, hq2, hq3, hq4, hq5⟩ :=
          ih ((buf.length : Int) - (p + 1)).toNat (by omega) i (p + 1)
            res rfl hi (by omega) hrun
        have e1 : (p + 1).toNat = p.toNat + 1 := by omega
        rw [e1, count_succ_nonl buf p.toNat hnl] at hq5
        exact ⟨q, by omega, hq2, hq3, hq4, by omega⟩

theorem moveBack_count_spec (buf : List Nat) (an : Nat) :
    ∀ k i : Nat, ∀ p res : Int,
      (p + 1).toNat = k → i ≤ an → 0 ≤ p →
      moveBack buf an i p = some (res, false) →
      ∃ r : Nat, 1 ≤ r ∧ (r : Int) ≤ p ∧ isNl buf r ∧
        res = ((lineStart buf (r - 1) : Nat) : Int) ∧
        Nat.count (isNl buf) (p.toNat + 1) + i = Nat.count (isNl buf) r + an + 1 := by
  intro k
  induction k using Nat.strong_induction_on with
  | _ k ih =>
    intro i p res hk hi hp hrun
    by_cases hend : (buf.length : Int) ≤ p
    · rw [moveBack_clamp_end buf an i p (by omega) hend] at hrun
      simp at hrun
    · by_cases hnl : buf.getD p.toNat 0 = NL
      · by_cases hdone : an < i + 1
        · by_cases hz : p = 0
          · rw [moveBack_hit_oob buf an i p (by omega) hend hnl hdone hz] at hrun
            simp at hrun
          · rw [moveBack_hit_stop buf an i p (by omega) hend hnl hdone hz] at hrun
            have hres : res = ((lineStart buf (p - 1).toNat : Nat) : Int) := by
              have := congrArg (fun o => (Option.map Prod.fst o)) hrun
              simpa using this.symm
            refine ⟨p.toNat, by omega, by omega, hnl, ?_, ?_⟩
            · rw [hres]
              have : (p - 1).toNat = p.toNat - 1 := by omega
              rw [this]
            · rw [count_succ_nl buf p.toNat hnl]
              omega
        · rw [moveBack_hit_more buf an i p (by omega) hend hnl hdone] at hrun
          by_cases hz : p = 0
          · rw [hz] at hrun
            rw [moveBack_clamp_neg buf an (i + 1) (0 - 1) (by omega)] at hrun
            simp at hrun
          · obtain ⟨r, hr1, hr2, hr3, hr4, hr5⟩ :=
              ih (p - 1 + 1).toNat (by omega) (i + 1) (p - 1) res rfl (by omega)
                (by omega) hrun
            have e1 : (p - 1).toNat + 1 = p.toNat := by omega
            rw [e1] at hr5
            refine ⟨r, hr1, by omega, hr3, hr4, ?_⟩
            rw [count_succ_nl buf p.toNat hnl]
            omega
      · rw [moveBack_skip buf an i p (by omega) hend hnl] at hrun
        by_cases hz : p = 0
        · rw [hz] at hrun
          rw [moveBack_clamp_neg buf an i (0 - 1) (by omega)] at hrun
          simp at hrun
        · obtain ⟨r, hr1, hr2, hr3, hr4, hr5⟩ :=
            ih (p - 1 + 1).toNat (by omega) i (p - 1) res rfl hi (by omega) hrun
          have e1 : (p - 1).toNat + 1 = p.toNat := by omega
          rw [e1] at hr5
          refine ⟨r, hr1, by omega, hr3, hr4, ?_⟩
          rw [count_succ_nonl buf p.toNat hnl]
          omega

theorem moveFwd_shape (buf : List Nat) (an : Nat) :
    ∀ k i : Nat, ∀ p res : Int, ∀ f : Bool,
      ((buf.length : Int) - p).toNat = k →
      moveFwd buf an i p = (res, f) →
      res = 0 ∨ res = (buf.length : Int) - 1 ∨
        ∃ q : Nat, isNl buf q ∧ res = (q : Int) + 1 := by
  intro k
  induction k using Nat.strong_induction_on with
  | _ k ih =>
    intro i p res f hk hrun
    by_cases hneg : p < 0
    · rw [moveFwd_clamp_neg buf an i p hneg] at hrun
      exact Or.inl (by simpa using (congrArg Prod.fst hrun).symm)
    · by_cases hend : (buf.length : Int) ≤ p
      · rw [moveFwd_clamp_end buf an i p hneg hend] at hrun
        exact Or.inr (Or.inl (by simpa using (congrArg Prod.fst hrun).symm))
      · by_cases hnl : buf.getD p.toNat 0 = NL
        · by_cases hdone : an < i + 1
          · rw [moveFwd_hit buf an i p hneg hend hnl hdone] at hrun
            have hres : res = p + 1 := by
              simpa using (congrArg Prod.fst hrun).symm
            exact Or.inr (Or.inr ⟨p.toNat, hnl, by omega⟩)
          · rw [moveFwd_hit_more buf an i p hneg hend hnl hdone] at hrun
            exact ih ((buf.length : Int) - (p + 1)).toNat (by omega) (i + 1)
              (p + 1) res f rfl hrun
        · rw [moveFwd_skip buf an i p hneg hend hnl] at hrun
          exact ih ((buf.length : Int) - (p + 1)).toNat (by omega) i
            (p + 1) res f rfl hrun

theorem moveBack_shape (buf : List Nat) (an : Nat) :
    ∀ k i : Nat, ∀ p res : Int, ∀ f : Bool,
      (p + 1).toNat = k →
      moveBack buf an i p = some (res, f) →
      res = 0 ∨ res = (buf.length : Int) - 1 ∨
        ∃ q : Nat, isNl buf q ∧ res = (q : Int) + 1 := by
  intro k
  induction k using Nat.strong_induction_on with
  | _ k ih =>
    intro i p res f hk hrun
    by_cases hneg : p < 0
    · rw [moveBack_clamp_neg buf an i p hneg] at hrun
      refine Or.inl ?_
      have := congrArg (fun o => (Option.map Prod.fst o)) hrun
      simpa using this.symm
    · by_cases hend : (buf.length : Int) ≤ p
      · rw [moveBack_clamp_end buf an i p hneg hend] at hrun
        refine Or.inr (Or.inl ?_)
        have := congrArg (fun o => (Option.map Prod.fst o)) hrun
        simpa using this.symm
      · by_cases hnl : buf.getD p.toNat 0 = NL
        · by_cases hdone : an < i + 1
          · by_cases hz : p = 0
            · rw [moveBack_hit_oob buf an i p hneg hend hnl hdone hz] at hrun
              simp at hrun
            · rw [moveBack_hit_stop buf an i p hneg hend hnl hdone hz] at hrun
              have hres : res = ((lineStart buf (p - 1).toNat : Nat) : Int) := by
                have := congrArg (fun o => (Option.map Prod.fst o)) hrun
                simpa using this.symm
              rcases lineStart_shape buf (p - 1).toNat with h0 | ⟨q, hq1, hq2⟩
              · exact Or.inl (by rw [hres, h0]; rfl)
              · exact Or.inr (Or.inr ⟨q, hq1, by rw [hres, hq2]; push_cast; ring⟩)
          · rw [moveBack_hit_more buf an i p hneg hend hnl hdone] at hrun
            exact ih (p - 1 + 1).toNat (by omega) (i + 1) (p - 1) res f rfl hrun
        · rw [moveBack_skip buf an i p hneg hend hnl] at hrun
          exact ih (p - 1 + 1).toNat (by omega) i (p - 1) res f rfl hrun

/-- C2 (amended): scrollByLines(n) followed by scrollByLines(-n) restores
`page_offset` when n > 0, the starting offset is line-aligned with its
preceding newline not at offset 0 (start of file, or at least 2 with a
newline immediately before), neither call clamps at a file boundary and
the backward scan does not fall off the start (both calls return a
result with a `false` clamp flag), and the byte at the intermediate
`page_offset` is not itself a newline (the line scrolled to is not
empty). -/
theorem scroll_roundtrip_restores_offset (buf : List Nat) (n p₀ p₁ p₂ : Int)
    (hn : 0 < n)
    (halign : p₀ = 0 ∨ (2 ≤ p₀ ∧ isNl buf (p₀ - 1).toNat))
    (h1 : qe_move_window_y buf p₀ n = some (p₁, false))
    (hmid : ¬ isNl buf p₁.toNat)
    (h2 : qe_move_window_y buf p₁ (-n) = some (p₂, false)) :
    p₂ = p₀ := by
  have hp₀ : 0 ≤ p₀ := by rcases halign with h | ⟨h, _⟩ <;> omega
  unfold qe_move_window_y at h1 h2
  rw [if_pos hn] at h1
  have h1' : moveFwd buf n.toNat 0 p₀ = (p₁, false) := Option.some.inj h1
  obtain ⟨q, hq1, hq2, hq3, hq4, hq5⟩ :=
    moveFwd_count_spec buf n.toNat ((buf.length : Int) - p₀).toNat 0 p₀ p₁
      rfl (Nat.zero_le _) hp₀ h1'
  rw [if_neg (by omega), neg_neg] at h2
  obtain ⟨r, hr1, hr2, hr3, hr4, hr5⟩ :=
    moveBack_count_spec buf n.toNat (p₁ + 1).toNat 0 p₁ p₂
      rfl (Nat.zero_le _) (by omega) h2
  have hq1n : p₁.toNat = q + 1 := by omega
  rw [hq1n] at hmid hr5
  rw [count_succ_nonl buf (q + 1) hmid] at hr5
  have hcr : Nat.count (isNl buf) r = Nat.count (isNl buf) p₀.toNat := by omega
  have hpr : p₀.toNat ≤ r := count_nl_position buf p₀.toNat r hr3 hcr
  have hno : ∀ j : Nat, p₀.toNat ≤ j → j < r → ¬ isNl buf j :=
    fun j hj1 hj2 => count_no_nl_between buf p₀.toNat r j hcr.symm hj1 hj2
  rcases halign with h0 | ⟨hge, hprev⟩
  · have hz : lineStart buf (r - 1) = 0 :=
      lineStart_eq_zero buf (r - 1)
        (fun j hj => hno j (by omega) (by omega))
    rw [hr4, hz, h0]
    rfl
  · have hmprev : isNl buf (p₀.toNat - 1) := by
      have : (p₀ - 1).toNat = p₀.toNat - 1 := by omega
      rw [this] at hprev
      exact hprev
    have hs : lineStart buf (r - 1) = (p₀.toNat - 1) + 1 :=
      lineStart_eq_succ buf (p₀.toNat - 1) (by omega) hmprev (r - 1)
        (by omega) (fun j hj1 hj2 => hno j (by omega) (by omega))
    rw [hr4, hs]
    omega

/-- C3 (amended): every `page_offset` reachable from 0 purely through
vertical scrolling operations is 0, or one plus the offset of a newline
byte, or the end-of-file clamp value `S - 1` (which the code produces on
any scroll that runs off the end, whether or not `S - 1` starts a
line). -/
theorem scroll_reachable_line_aligned_or_end (buf : List Nat) (p : Int)
    (h : ScrollReach buf p) :
    lineAligned buf p ∨ p = (buf.length : Int) - 1 := by
  induction h with
  | init => exact Or.inl (Or.inl rfl)
  | @step p n p' f hr hs ih =>
    clear ih
    unfold qe_move_window_y at hs
    have shape : p' = 0 ∨ p' = (buf.length : Int) - 1 ∨
        ∃ q : Nat, isNl buf q ∧ p' = (q : Int) + 1 := by
      by_cases hn : 0 < n
      · rw [if_pos hn] at hs
        exact moveFwd_shape buf n.toNat ((buf.length : Int) - p).toNat 0 p p' f
          rfl (Option.some.inj hs)
      · rw [if_neg hn] at hs
        exact moveBack_shape buf (-n).toNat (p + 1).toNat 0 p p' f rfl hs
    rcases shape with h0 | hend | ⟨q, hq1, hq2⟩
    · exact Or.inl (Or.inl h0)
    · exact Or.inr hend
    · refine Or.inl (Or.inr ⟨by omega, ?_, ?_⟩)
      · have : q < buf.length := by
          by_contra hge
          have : buf.getD q 0 = 0 := List.getD_eq_default _ _ (by omega)
          have hq1' : buf.getD q 0 = NL := hq1
          rw [this] at hq1'
          exact absurd hq1' (by norm_num [NL])
        omega
      · have : (p' - 1).toNat = q := by omega
        rw [this]
        exact hq1

theorem drop_split (l : List Nat) (a b c : Nat) (h : a + b = c) :
    l.drop c = (l.drop a).drop b := by
  rw [List.drop_drop, h]

theorem memmemPos_none_spec (pat : List Nat) :
    ∀ hay : List Nat, memmemPos pat hay = none →
      ∀ j : Nat, ¬ (pat.isPrefixOf (hay.drop j) = true) := by
  intro hay
  induction hay with
  | nil =>
    intro h j
    simp only [memmemPos] at h
    by_cases hpre : pat.isPrefixOf [] = true
    · rw [if_pos hpre] at h
      exact absurd h (by simp)
    · rw [List.drop_nil]
      exact fun hc => hpre hc
  | cons b t iht =>
    intro h j
    simp only [memmemPos] at h
    by_cases hpre : pat.isPrefixOf (b :: t) = true
    · rw [if_pos hpre] at h
      exact absurd h (by simp)
    · rw [if_neg hpre] at h
      have ht : memmemPos pat t = none := by
        rcases hm : memmemPos pat t with _ | j'
        · rfl
        · rw [hm] at h
          exact absurd h (by simp)
      match j with
      | 0 =>
        rw [List.drop_zero]
        exact fun hc => hpre hc
      | j' + 1 =>
        rw [List.drop_succ_cons]
        exact iht ht j'

theorem memmemPos_some_spec (pat : List Nat) :
    ∀ hay : List Nat, ∀ j : Nat, memmemPos pat hay = some j →
      pat.isPrefixOf (hay.drop j) = true ∧
        ∀ k : Nat, k < j → ¬ (pat.isPrefixOf (hay.drop k) = true) := by
  intro hay
  induction hay with
  | nil =>
    intro j h
    simp only [memmemPos] at h
    by_cases hpre : pat.isPrefixOf [] = true
    · rw [if_pos hpre] at h
      have hj : j = 0 := by
        have := Option.some.inj h
        omega
      subst hj
      exact ⟨by rw [List.drop_nil]; exact hpre, fun k hk => by omega⟩
    · rw [if_neg hpre] at h
      exact absurd h (by simp)
  | cons b t iht =>
    intro j h
    simp only [memmemPos] at h
    by_cases hpre : pat.isPrefixOf (b :: t) = true
    · rw [if_pos hpre] at h
      have hj : j = 0 := by
        have := Option.some.inj h
        omega
      subst hj
      exact ⟨by rw [List.drop_zero]; exact hpre, fun k hk => by omega⟩
    · rw [if_neg hpre] at h
      rw [Option.map_eq_some'] at h
      obtain ⟨j', hj', hjj⟩ := h
      obtain ⟨ih1, ih2⟩ := iht j' hj'
      subst hjj
      refine ⟨by rw [List.drop_succ_cons]; exact ih1, ?_⟩
      intro k hk
      match k with
      | 0 =>
        rw [List.drop_zero]
        exact fun hc => hpre hc
      | k' + 1 =>
        rw [List.drop_succ_cons]
        exact ih2 k' (by omega)

/-- C5 (amended): for a non-empty pattern and a start offset at most the
file size, `qe_search` returns either the not-found sentinel `-1` with
no occurrence of the pattern at any offset at or after the start, or the
smallest offset at or after the start where the pattern occurs as a
contiguous byte run.  (An empty pattern is NOT answered with the
sentinel: glibc `memmem` matches it immediately, so the code returns
`from_offset` itself; see the counterexample.) -/
theorem qe_search_first_occurrence (buf pat : List Nat) (f : Nat)
    (_hp : pat ≠ []) (_hf : f ≤ buf.length) :
    (qe_search buf pat f = -1 ∧ ∀ o : Nat, f ≤ o → ¬ occursAt buf pat o) ∨
    (∃ o : Nat, qe_search buf pat f = (o : Int) ∧ f ≤ o ∧ occursAt buf pat o ∧
      ∀ o' : Nat, f ≤ o' → o' < o → ¬ occursAt buf pat o') := by
  unfold qe_search
  rcases hm : memmemPos pat (buf.drop f) with _ | j
  · refine Or.inl ⟨rfl, ?_⟩
    intro o ho hocc
    have hdrop : buf.drop o = (buf.drop f).drop (o - f) :=
      drop_split buf f (o - f) o (by omega)
    unfold occursAt at hocc
    rw [hdrop] at hocc
    exact memmemPos_none_spec pat (buf.drop f) hm (o - f) hocc
  · obtain ⟨h1, h2⟩ := memmemPos_some_spec pat (buf.drop f) j hm
    refine Or.inr ⟨f + j, rfl, by omega, ?_, ?_⟩
    · unfold occursAt
      rw [drop_split buf f j (f + j) rfl]
      exact h1
    · intro o' ho1 ho2 hocc
      unfold occursAt at hocc
      rw [drop_split buf f (o' - f) o' (by omega)] at hocc
      exact h2 (o' - f) (by omega) hocc

/-- Bounds of `qe_get_cursor_byte_position`: for a non-empty buffer and a
non-negative horizontal scroll the result lies in `[0, S)`. -/
theorem cursor_pos_bounds (buf : List Nat) (p pox : Int) (cx cy : Nat)
    (hS : 1 ≤ buf.length) (hpox : 0 ≤ pox) :
    0 ≤ qe_get_cursor_byte_position buf p pox cx cy ∧
      qe_get_cursor_byte_position buf p pox cx cy < (buf.length : Int) := by
  unfold qe_get_cursor_byte_position
  rcases hsc : cursorScan buf cy p.toNat with _ | off <;> simp only [hsc]
  · constructor <;> omega
  · split
    · constructor <;> omega
    · constructor <;> omega

/-- C7: an Insert-mode overwrite of a non-navigation byte `c` at the
cursor's byte offset `o = cursorByteOffset()` changes the buffer at
exactly index `o` (which afterwards holds `c`), leaves every other index
unchanged, and does not change the buffer's size. -/
theorem insert_overwrites_exactly_one_byte (width : Nat) (e : Editor) (c : Int)
    (hS : 1 ≤ e.page.length) (hpox : 0 ≤ e.page_offset_x)
    (hc0 : 0 ≤ c) (hc : c < 256) :
    ((qe_insert_byte width e c).1).length = e.page.length ∧
    ((qe_insert_byte width e c).1).getD
      (qe_get_cursor_byte_position e.page e.page_offset e.page_offset_x
        e.cursor_x e.cursor_y).toNat 0 = c.toNat ∧
    ∀ j : Nat, j ≠ (qe_get_cursor_byte_position e.page e.page_offset
        e.page_offset_x e.cursor_x e.cursor_y).toNat →
      ((qe_insert_byte width e c).1).getD j 0 = e.page.getD j 0 := by
  obtain ⟨hb0, hb1⟩ := cursor_pos_bounds e.page e.page_offset e.page_offset_x
    e.cursor_x e.cursor_y hS hpox
  have hfst : (qe_insert_byte width e c).1 =
      e.page.set (qe_get_cursor_byte_position e.page e.page_offset
        e.page_offset_x e.cursor_x e.cursor_y).toNat ((c % 256)).toNat := rfl
  have hval : ((c % 256)).toNat = c.toNat := by
    omega
  refine ⟨?_, ?_, ?_⟩
  · rw [hfst, List.length_set]
  · rw [hfst, hval, List.getD_eq_getElem?_getD,
      List.getElem?_set_self (by omega)]
    rfl
  · intro j hj
    rw [hfst, List.getD_eq_getElem?_getD, List.getD_eq_getElem?_getD,
      List.getElem?_set_ne (by omega)]

/-- C6 (amended): a rightward cursor move whose target column stays
within the current view (`page_offset_x + cursor_x + 1 < width`) is
refused — the whole editor state, in particular `cursor_x`, `cursor_y`,
`page_offset` and `page_offset_x`, is left unchanged — whenever the byte
following the cursor's byte offset is a newline. -/
theorem move_right_refused_before_newline (width : Nat) (e : Editor)
    (hpox : 0 ≤ e.page_offset_x)
    (hview : e.page_offset_x + (e.cursor_x : Int) + 1 < (width : Int))
    (hnl : rdChk e.page (qe_get_cursor_byte_position e.page e.page_offset
      e.page_offset_x e.cursor_x e.cursor_y + 1) = some NL) :
    qe_move_cursor_x width e 1 = some e := by
  simp only [qe_move_cursor_x]
  rw [if_neg (by omega), if_neg (by omega), if_pos (by norm_num : (0 : Int) < 1),
    hnl]
  simp

/-- C8 (amended): `qe_move_cursor_y` preserves the row invariant
`0 ≤ cursor_y ≤ height - 2` for any terminal height in `[2, 32767]`;
the Insert-mode advance, by contrast, violates it (see the
counterexample), so the invariant does not hold over all key events. -/
theorem move_cursor_y_preserves_row_bound (height : Nat) (e e' : Editor)
    (y : Int) (hh2 : 2 ≤ height) (hh : height ≤ 32767)
    (hcy : e.cursor_y ≤ height - 2)
    (h : qe_move_cursor_y height e y = some e') :
    e'.cursor_y ≤ height - 2 := by
  simp only [qe_move_cursor_y] at h
  split at h
  · split at h
    · have he : e = e' := Option.some.inj h
      rw [← he]
      exact hcy
    · rw [Option.map_eq_some'] at h
      obtain ⟨r, -, hr⟩ := h
      rw [← hr]
      simp only
      omega
  · split at h
    · rw [Option.map_eq_some'] at h
      obtain ⟨r, -, hr⟩ := h
      rw [← hr]
      simp only
      omega
    · have hr := Option.some.inj h
      rw [← hr]
      simp only
      omega

/-- C1: on the 17-byte buffer `abcdefghij`, newline, `klmno`, newline,
`scrollByLines(1)` from `page_offset = 0` is claimed to set
`page_offset = 11`; the code instead scans past TWO newlines (its
`++i > an` trigger fires on the `an + 1`-th newline) and sets
`page_offset = 17`, which equals the file size and is outside the valid
offset range — contradicting the function's own comment "scan past `n`
newlines" and its clamping intent. -/
theorem qe_move_window_y_overshoots_demo :
    qe_move_window_y bufDemo 0 1 = some (17, false) ∧
      (bufDemo.length : Int) = 17 := by
  constructor
  · unfold qe_move_window_y
    norm_num
    simp (disch := decide) only [moveFwd_skip, moveFwd_hit_more, moveFwd_hit,
      moveFwd_clamp_end, moveFwd_clamp_neg]
    norm_num
  · decide

/-- C2 (counterexample): on the buffer `a`, newline, `b`, newline,
newline, `c`, scrolling down one line from `page_offset = 0` and back up
one line yields `page_offset = 2`, not 0, although neither call clamps
at a boundary (both clamp flags are `false`): the intermediate offset 4
is an empty line, whose newline the backward scan counts. -/
theorem scroll_roundtrip_fails_on_empty_line :
    qe_move_window_y bufEmptyLine 0 1 = some (4, false) ∧
    qe_move_window_y bufEmptyLine 4 (-1) = some (2, false) ∧
    (2 : Int) ≠ 0 := by
  refine ⟨?_, ?_, by norm_num⟩
  · unfold qe_move_window_y
    norm_num
    simp (disch := decide) only [moveFwd_skip, moveFwd_hit_more, moveFwd_hit,
      moveFwd_clamp_end, moveFwd_clamp_neg]
    norm_num
  · unfold qe_move_window_y
    norm_num
    simp (disch := decide) only [moveBack_skip, moveBack_hit_more,
      moveBack_hit_stop, moveBack_clamp_end, moveBack_clamp_neg]
    decide

/-- C2 (witness): the round trip on the five-line buffer `bufRound`
starting from offset 0 with n = 1 satisfies all hypotheses of the
amended theorem and indeed returns to offset 0. -/
theorem scroll_roundtrip_restores_offset_witness :
    qe_move_window_y bufRound 0 1 = some (6, false) ∧
    qe_move_window_y bufRound 6 (-1) = some (0, false) ∧ (0 : Int) = 0 := by
  have h1 : qe_move_window_y bufRound 0 1 = some (6, false) := by
    unfold qe_move_window_y
    norm_num
    simp (disch := decide) only [moveFwd_skip, moveFwd_hit_more, moveFwd_hit,
      moveFwd_clamp_end, moveFwd_clamp_neg]
    norm_num
  have h2 : qe_move_window_y bufRound 6 (-1) = some (0, false) := by
    unfold qe_move_window_y
    norm_num
    simp (disch := decide) only [moveBack_skip, moveBack_hit_more,
      moveBack_hit_stop, moveBack_clamp_end, moveBack_clamp_neg]
    decide
  exact ⟨h1, h2, scroll_roundtrip_restores_offset bufRound 1 0 6 0
    (by norm_num) (Or.inl rfl) h1 (by decide) h2⟩

/-- C3 (counterexample): on the newline-free buffer `ab`, one scrolling
step from the initial offset 0 reaches `page_offset = 1` (the
end-of-file clamp `S - 1`), which is neither 0 nor one past a newline
byte — the claimed line-start invariant fails on reachable states. -/
theorem page_offset_alignment_fails_at_eof_clamp :
    ScrollReach bufAB 1 ∧ ¬ lineAligned bufAB 1 := by
  have h : qe_move_window_y bufAB 0 1 = some (1, true) := by
    unfold qe_move_window_y
    norm_num
    simp (disch := decide) only [moveFwd_skip, moveFwd_hit_more, moveFwd_hit,
      moveFwd_clamp_end, moveFwd_clamp_neg]
    decide
  exact ⟨ScrollReach.step ScrollReach.init h, by decide⟩

/-- C3 (witness): the offset 17 reached on `bufDemo` by one scroll step
satisfies the amended disjunction (it is one past the newline at 16). -/
theorem scroll_reachable_line_aligned_or_end_witness :
    lineAligned bufDemo 17 ∨ (17 : Int) = (bufDemo.length : Int) - 1 := by
  have h : qe_move_window_y bufDemo 0 1 = some (17, false) := by
    unfold qe_move_window_y
    norm_num
    simp (disch := decide) only [moveFwd_skip, moveFwd_hit_more, moveFwd_hit,
      moveFwd_clamp_end, moveFwd_clamp_neg]
    norm_num
  exact scroll_reachable_line_aligned_or_end bufDemo 17
    (ScrollReach.step ScrollReach.init h)

/-- C4: with `page_offset = 11` (start of the second line of `bufDemo`),
`page_offset_x = 0`, `cursor_x = 0`, `cursor_y = 1`, the claimed scan
lands one past the newline at 16 and clamps to 16 (`cursorOffsetSpec`),
but the code returns 6: `qe_get_cursor_byte_position` assigns
`offset = s - &page[offset]`, the newline's index relative to the scan
start, where an absolute index is required — the code's own comment
says "TODO: Incorrect on non-first-line". -/
theorem cursor_byte_position_wrong_on_second_line :
    qe_get_cursor_byte_position bufDemo 11 0 0 1 = 6 ∧
    cursorOffsetSpec bufDemo 11 0 0 1 = 16 := by
  constructor <;> decide

/-- C5 (counterexample): searching for the EMPTY pattern from offset 5
returns 5 (glibc `memmem` reports an immediate match for an empty
needle), not the claimed not-found sentinel `-1`. -/
theorem qe_search_empty_pattern_not_sentinel :
    qe_search bufSearch [] 5 = 5 ∧ (5 : Int) ≠ -1 := by
  constructor <;> decide

/-- C5 (witness): searching `def` in `abcdefabcdef` from offset 0
returns 3, and the amended theorem applies at that instance. -/
theorem qe_search_first_occurrence_witness :
    qe_search bufSearch patDef 0 = 3 ∧
    ((qe_search bufSearch patDef 0 = -1 ∧
        ∀ o : Nat, 0 ≤ o → ¬ occursAt bufSearch patDef o) ∨
      (∃ o : Nat, qe_search bufSearch patDef 0 = (o : Int) ∧ 0 ≤ o ∧
        occursAt bufSearch patDef o ∧
        ∀ o' : Nat, 0 ≤ o' → o' < o → ¬ occursAt bufSearch patDef o')) :=
  ⟨by decide, qe_search_first_occurrence bufSearch patDef 0 (by decide)
    (by decide)⟩

/-- C6 (counterexample): on the second line `klmno` of `bufDemo` in the
no-wrap layout (width 10), moving right from column 0 succeeds exactly
FOUR times; the FIFTH call — not the sixth — is refused (the cursor
stops on the final `o`, column 4, because the byte after it is the
newline), leaving the state unchanged.  The claim's "five successive
calls all succeed and the sixth attempt is refused" is false. -/
theorem move_right_fifth_call_refused :
    qe_move_cursor_x 10 (stKl 0) 1 = some (stKl 1) ∧
    qe_move_cursor_x 10 (stKl 1) 1 = some (stKl 2) ∧
    qe_move_cursor_x 10 (stKl 2) 1 = some (stKl 3) ∧
    qe_move_cursor_x 10 (stKl 3) 1 = some (stKl 4) ∧
    qe_move_cursor_x 10 (stKl 4) 1 = some (stKl 4) ∧
    (stKl 4).cursor_x = 4 := by
  exact ⟨by decide, by decide, by decide, by decide, by decide, by decide⟩

/-- C6 (witness): with the cursor at column 4 on the second line of
`bufDemo`, the byte after the cursor is the newline at offset 16 and the
rightward move is refused, state unchanged. -/
theorem move_right_refused_before_newline_witness :
    qe_move_cursor_x 10 (stKl 4) 1 = some (stKl 4) :=
  move_right_refused_before_newline 10 (stKl 4) (by decide) (by decide)
    (by decide)

/-- C7 (witness): typing `x` (byte 120) in Insert mode over `ab` with the
cursor at offset 0 keeps the length at 2, stores 120 at offset 0, and
leaves offset 1 unchanged. -/
theorem insert_overwrites_exactly_one_byte_witness :
    ((qe_insert_byte 10 stIns 120).1).length = stIns.page.length ∧
    ((qe_insert_byte 10 stIns 120).1).getD
      (qe_get_cursor_byte_position stIns.page stIns.page_offset
        stIns.page_offset_x stIns.cursor_x stIns.cursor_y).toNat 0 =
      (120 : Int).toNat ∧
    ((qe_insert_byte 10 stIns 120).1).getD 1 0 = stIns.page.getD 1 0 := by
  have h := insert_overwrites_exactly_one_byte 10 stIns 120 (by decide)
    (by decide) (by decide) (by decide)
  exact ⟨h.1, h.2.1, h.2.2 1 (by decide)⟩

/-- C8 (counterexample): with terminal height 2 (so the invariant demands
`cursor_y ≤ 0`) over the mutable buffer `a`, newline, `b`, the key
sequence `i`, `x` from the initial state overwrites the `a` and — since
the next byte is a newline — advances `cursor_y` to 1 with no bound
check, violating `0 ≤ cursor_y ≤ height - 2`. -/
theorem insert_advance_breaks_cursor_row_bound :
    qe_process_key 10 2 stANl 105 = Outcome.ok stANlIns ∧
    qe_process_key 10 2 stANlIns 120 = Outcome.ok stANlAfter ∧
    ¬ (stANlAfter.cursor_y ≤ 2 - 2) := by
  exact ⟨by decide, by decide, by decide⟩

/-- C8 (witness): a vertical cursor move within the view (height 5, row
1 to row 2) satisfies the amended preservation theorem. -/
theorem move_cursor_y_preserves_row_bound_witness :
    qe_move_cursor_y 5 (stRow 1) 1 = some (stRow 2) ∧
    (stRow 2).cursor_y ≤ 5 - 2 := by
  have h : qe_move_cursor_y 5 (stRow 1) 1 = some (stRow 2) := by decide
  exact ⟨h, move_cursor_y_preserves_row_bound 5 (stRow 1) (stRow 2) 1
    (by decide) (by decide) (by decide) h⟩

/-- C9: in Search mode with an empty pattern, a backspace decrements the
`size_t` `search_len` to `2^64 - 1` (the guard `if (search_len == 0)
search_len = 0;` is dead code betraying the intended clamp) and then
writes the terminator at `search_buf[2^64 - 1]`, far outside `[0, 63]` —
modelled as the out-of-bounds fault. -/
theorem search_backspace_underflow_faults :
    qe_process_key 10 5 stSrch 127 = Outcome.fault := by
  decide

/-- C10: over the two-byte buffer `ab` (width 10, height 5), the first
cursor-right key moves the cursor onto the last byte (offset 1 = S - 1);
the second cursor-right key evaluates the newline look-ahead
`page[off + 1]` at offset 2 = S, one past the end of the buffer — an
out-of-bounds read, refuting the claim that all reads stay in `[0, S)`. -/
theorem cursor_right_look_ahead_reads_past_end :
    qe_process_key 10 5 (stAB 0) 108 = Outcome.ok (stAB 1) ∧
    qe_process_key 10 5 (stAB 1) 108 = Outcome.fault := by
  exact ⟨by decide, by decide⟩
